import Mathlib

/-
  Verification development for the ZipVoice `zipformer.py` encoder.

  The Python source (src/zipvoice/zipformer.py) is shallowly embedded below.
  Tensors are modelled over ℚ:
  * the time axis of a (seq_len, batch, channels) tensor becomes a `List` of
    frames, a frame being a `List ℚ` (the flattened batch×channel slice);
  * machine floats become exact rationals, except where a claim depends on the
    float behaviour of `exp`, which is modelled by an abstract function
    constrained by the facts the code itself relies on (positivity in the
    representable range, underflow to exactly 0 for very negative arguments);
  * functions from `scaling.py` (not part of the sources provided) are
    modelled from the spec; each such definition's doc comment starts with
    `Modelled from the spec:`.
-/

namespace ZipVoice

/-! ### Shared list helpers -/

/-- Maximum of a list of rationals (0 for the empty list); `listMax (x :: xs)`
folds `max` over the tail starting from `x`, matching the row-max used by a
numerically stable softmax. -/
def listMax : List ℚ → ℚ
  | [] => 0
  | x :: xs => xs.foldl max x

theorem foldl_max_mem (xs : List ℚ) (a : ℚ) : xs.foldl max a ∈ a :: xs := by
  induction xs generalizing a with
  | nil => simp
  | cons y ys ih =>
    have h := ih (max a y)
    rcases List.mem_cons.mp h with h1 | h1
    · rcases max_choice a y with hc | hc
      · rw [List.foldl_cons, h1, hc]; exact List.mem_cons_self _ _
      · rw [List.foldl_cons, h1, hc]
        exact List.mem_cons_of_mem _ (List.mem_cons_self _ _)
    · rw [List.foldl_cons]
      exact List.mem_cons_of_mem _ (List.mem_cons_of_mem _ h1)

theorem le_foldl_max_init (xs : List ℚ) (a : ℚ) : a ≤ xs.foldl max a := by
  induction xs generalizing a with
  | nil => simp
  | cons y ys ih =>
    calc a ≤ max a y := le_max_left a y
    _ ≤ ys.foldl max (max a y) := ih (max a y)

theorem le_foldl_max_of_mem {xs : List ℚ} {b : ℚ} (h : b ∈ xs) (a : ℚ) :
    b ≤ xs.foldl max a := by
  induction xs generalizing a with
  | nil => cases h
  | cons y ys ih =>
    rcases List.mem_cons.mp h with h1 | h1
    · subst h1
      calc b ≤ max a b := le_max_right a b
      _ ≤ ys.foldl max (max a b) := le_foldl_max_init ys (max a b)
    · exact ih h1 (max a y)

theorem foldl_max_le {xs : List ℚ} {a c : ℚ} (ha : a ≤ c)
    (h : ∀ x ∈ xs, x ≤ c) : xs.foldl max a ≤ c := by
  induction xs generalizing a with
  | nil => simpa using ha
  | cons y ys ih =>
    have hy : y ≤ c := h y (by simp)
    exact ih (max_le ha hy) (fun x hx => h x (by simp [hx]))

theorem listMax_mem {xs : List ℚ} (h : xs ≠ []) : listMax xs ∈ xs := by
  cases xs with
  | nil => exact absurd rfl h
  | cons x t => exact foldl_max_mem t x

theorem le_listMax {xs : List ℚ} {b : ℚ} (h : b ∈ xs) : b ≤ listMax xs := by
  cases xs with
  | nil => cases h
  | cons x t =>
    rcases List.mem_cons.mp h with h1 | h1
    · subst h1; exact le_foldl_max_init t b
    · exact le_foldl_max_of_mem h1 x

theorem listMax_le {xs : List ℚ} {c : ℚ} (h : xs ≠ []) (hall : ∀ x ∈ xs, x ≤ c) :
    listMax xs ≤ c := by
  cases xs with
  | nil => exact absurd rfl h
  | cons x t =>
    exact foldl_max_le (hall x (by simp)) (fun y hy => hall y (by simp [hy]))

theorem sum_map_div (l : List ℚ) (c : ℚ) :
    (l.map (fun x => x / c)).sum = l.sum / c := by
  induction l with
  | nil => simp
  | cons x t ih => simp [ih, add_div]

theorem sum_pos_of_mem {l : List ℚ} {a : ℚ} (hmem : a ∈ l) (ha : 0 < a)
    (hall : ∀ x ∈ l, 0 ≤ x) : 0 < l.sum := by
  induction l with
  | nil => cases hmem
  | cons x t ih =>
    rcases List.mem_cons.mp hmem with h1 | h1
    · subst h1
      have : 0 ≤ t.sum := List.sum_nonneg (fun y hy => hall y (by simp [hy]))
      simpa using add_pos_of_pos_of_nonneg ha this
    · have hx : 0 ≤ x := hall x (by simp)
      have ht : 0 < t.sum := ih h1 (fun y hy => hall y (by simp [hy]))
      simpa using add_pos_of_nonneg_of_pos hx ht

/-! ### C3: the downsampling-factor schedule check

Embedding of `_assert_downsampling_factor` (zipformer.py lines 143-153), the
check run at the very start of `TTSZipformer.__init__` (line 153), before any
sub-module is built.  The Python asserts are collected into one Bool:
`true` means every assert passes (construction proceeds), `false` means an
`AssertionError` aborts construction. -/

/-- `_assert_downsampling_factor(factors)`: asserts `factors[0] == 1`,
`factors[-1] == 1`, `factors[i] == factors[i-1] * 2` for `i` in
`range(1, len(factors)//2 + 1)` and `factors[i] * 2 == factors[i-1]` for `i`
in `range(len(factors)//2 + 1, len(factors))`. -/
def assertDownsamplingFactor (factors : List ℕ) : Bool :=
  let n := factors.length
  (factors.getD 0 0 == 1) && (factors.getD (n - 1) 0 == 1) &&
  (List.range' 1 (n / 2)).all (fun i => factors.getD i 0 == factors.getD (i - 1) 0 * 2) &&
  (List.range' (n / 2 + 1) (n - (n / 2 + 1))).all
    (fun i => factors.getD i 0 * 2 == factors.getD (i - 1) 0)

/-- The schedule shape stated by the spec: first and last entries are 1,
entries double at each step up to the midpoint and then halve back down. -/
def uNetSchedule (factors : List ℕ) : Prop :=
  factors.getD 0 0 = 1 ∧ factors.getD (factors.length - 1) 0 = 1 ∧
  (∀ i, 1 ≤ i → i ≤ factors.length / 2 →
    factors.getD i 0 = factors.getD (i - 1) 0 * 2) ∧
  (∀ i, factors.length / 2 + 1 ≤ i → i < factors.length →
    factors.getD i 0 * 2 = factors.getD (i - 1) 0)

instance (factors : List ℕ) : Decidable (uNetSchedule factors) := by
  unfold uNetSchedule
  have h1 : Decidable (∀ i, 1 ≤ i → i ≤ factors.length / 2 →
      factors.getD i 0 = factors.getD (i - 1) 0 * 2) := by
    have : (∀ i, 1 ≤ i → i ≤ factors.length / 2 →
        factors.getD i 0 = factors.getD (i - 1) 0 * 2) ↔
        (∀ i < factors.length / 2 + 1, 1 ≤ i →
          factors.getD i 0 = factors.getD (i - 1) 0 * 2) := by
      constructor
      · intro h i hi h1i; exact h i h1i (by omega)
      · intro h i h1i hi; exact h i (by omega) h1i
    rw [this]; exact Nat.decidableBallLT _ _
  have h2 : Decidable (∀ i, factors.length / 2 + 1 ≤ i → i < factors.length →
      factors.getD i 0 * 2 = factors.getD (i - 1) 0) := by
    have : (∀ i, factors.length / 2 + 1 ≤ i → i < factors.length →
        factors.getD i 0 * 2 = factors.getD (i - 1) 0) ↔
        (∀ i < factors.length, factors.length / 2 + 1 ≤ i →
          factors.getD i 0 * 2 = factors.getD (i - 1) 0) := by
      constructor
      · intro h i hi h1i; exact h i h1i hi
      · intro h i h1i hi; exact h i hi h1i
    rw [this]; exact Nat.decidableBallLT _ _
  exact @instDecidableAnd _ _ _ (@instDecidableAnd _ _ _ (@instDecidableAnd _ _ _ h2))

theorem all_range'_iff (s n : ℕ) (p : ℕ → Bool) :
    (List.range' s n).all p = true ↔ ∀ i, s ≤ i → i < s + n → p i = true := by
  rw [List.all_eq_true]
  constructor
  · intro h i h1 h2
    exact h i (by rw [List.mem_range'_1]; exact ⟨by omega, by omega⟩)
  · intro h i hi
    rw [List.mem_range'_1] at hi
    exact h i (by omega) (by omega)

/-- C3: `TTSZipformer` construction passes the downsampling-schedule assert
exactly when the schedule is a U-Net shape (first and last entries 1, entries
doubling up to the midpoint and halving back down); the schedules (2,4,4) and
(1,3,1) are rejected (the assert fails, so construction aborts before any
module is built). -/
theorem c3_downsampling_schedule (factors : List ℕ) (hne : factors ≠ []) :
    (assertDownsamplingFactor factors = true ↔ uNetSchedule factors) ∧
    assertDownsamplingFactor [2, 4, 4] = false ∧
    assertDownsamplingFactor [1, 3, 1] = false := by
  refine ⟨?_, by decide, by decide⟩
  unfold assertDownsamplingFactor uNetSchedule
  simp only [Bool.and_eq_true, beq_iff_eq]
  rw [all_range'_iff, all_range'_iff]
  constructor
  · rintro ⟨⟨⟨h0, hl⟩, hup⟩, hdown⟩
    refine ⟨h0, hl, ?_, ?_⟩
    · intro i h1 h2
      have := hup i h1 (by omega)
      simpa [beq_iff_eq] using this
    · intro i h1 h2
      have := hdown i h1 (by omega)
      simpa [beq_iff_eq] using this
  · rintro ⟨h0, hl, hup, hdown⟩
    refine ⟨⟨⟨h0, hl⟩, ?_⟩, ?_⟩
    · intro i h1 h2
      simpa [beq_iff_eq] using hup i h1 (by omega)
    · intro i h1 h2
      simpa [beq_iff_eq] using hdown i h1 (by omega)

theorem c3_downsampling_schedule_witness :
    ([1, 2, 1] ≠ ([] : List ℕ)) ∧
    ((assertDownsamplingFactor [1, 2, 1] = true ↔ uNetSchedule [1, 2, 1]) ∧
      assertDownsamplingFactor [2, 4, 4] = false ∧
      assertDownsamplingFactor [1, 3, 1] = false) :=
  ⟨by decide, c3_downsampling_schedule [1, 2, 1] (by decide)⟩

/-! ### C6: `timestep_embedding` (zipformer.py lines 46-68)

`timestep_embedding(timesteps, dim, max_period)` computes
`half = dim // 2`, `freqs = exp(-log(max_period) * arange(half) / half)`,
`args = timesteps[..., None] * freqs`, and returns
`cat([cos(args), sin(args)], dim=-1)`, zero-padded by one column when `dim`
is odd.  A rank-2 input of shape (N, T) is first transposed to (T, N).
`cos`, `sin` and the frequency table are real transcendental functions; they
enter the embedding as abstract parameters `co si : ℚ → ℚ` and
`freqsF : ℕ → ℚ` since the claim concerns shapes, padding and purity, none of
which depend on their values. -/

/-- One output row of `timestep_embedding` for a single scalar timestep `t`:
`cos(t * freqs) ++ sin(t * freqs)`, padded with a trailing 0 when `dim` is
odd (zipformer.py lines 64-67). -/
def timestepEmbeddingRow (co si : ℚ → ℚ) (freqs : List ℚ) (dim : ℕ) (t : ℚ) :
    List ℚ :=
  (freqs.map fun fr => co (t * fr)) ++ (freqs.map fun fr => si (t * fr)) ++
    (if dim % 2 = 1 then [0] else [])

/-- `timestep_embedding` on a rank-1 input of shape (N): output (N, dim). -/
def timestepEmbedding1 (co si : ℚ → ℚ) (freqsF : ℕ → ℚ) (dim : ℕ)
    (timesteps : List ℚ) : List (List ℚ) :=
  let half := dim / 2
  let freqs := (List.range half).map freqsF
  timesteps.map (timestepEmbeddingRow co si freqs dim)

/-- `timesteps.transpose(0, 1)` for a rectangular (N, T) list-of-rows,
yielding T rows of length N. -/
def transposeNT (timesteps : List (List ℚ)) (t : ℕ) : List (List ℚ) :=
  (List.range t).map fun j => timesteps.map fun r => r.getD j 0

/-- `timestep_embedding` on a rank-2 input of shape (N, T): the input is
transposed to (T, N) and the row embedding is applied pointwise, giving
output shape (T, N, dim). -/
def timestepEmbedding2 (co si : ℚ → ℚ) (freqsF : ℕ → ℚ) (dim : ℕ)
    (timesteps : List (List ℚ)) (t : ℕ) : List (List (List ℚ)) :=
  (transposeNT timesteps t).map (timestepEmbedding1 co si freqsF dim)

theorem timestepEmbeddingRow_length (co si : ℚ → ℚ) (freqs : List ℚ)
    (dim : ℕ) (t : ℚ) (hf : freqs.length = dim / 2) :
    (timestepEmbeddingRow co si freqs dim t).length = dim := by
  unfold timestepEmbeddingRow
  rcases Nat.even_or_odd dim with h | h
  · have : dim % 2 = 0 := Nat.even_iff.mp h
    simp [this, hf]
    omega
  · have : dim % 2 = 1 := Nat.odd_iff.mp h
    simp [this, hf]
    omega

theorem timestepEmbeddingRow_oddPad (co si : ℚ → ℚ) (freqs : List ℚ)
    (dim : ℕ) (t : ℚ) (hodd : dim % 2 = 1) :
    (timestepEmbeddingRow co si freqs dim t).getLast? = some 0 := by
  unfold timestepEmbeddingRow
  rw [hodd]
  rw [if_pos rfl]
  rw [List.getLast?_append_of_ne_nil _ (by simp)]
  rfl

/-- C6: `timestep_embedding` is a pure function (a plain `def`, no learnable
state).  On a rank-1 input of N timesteps it returns N rows, each of length
exactly `dim`, with a zero last entry when `dim` is odd; on a rectangular
rank-2 input of shape (N, T) it returns T groups of N such rows. -/
theorem c6_timestep_embedding (co si : ℚ → ℚ) (freqsF : ℕ → ℚ) (dim : ℕ)
    (ts1 : List ℚ) (ts2 : List (List ℚ)) (t : ℕ)
    (hrect : ∀ r ∈ ts2, r.length = t) :
    ((timestepEmbedding1 co si freqsF dim ts1).length = ts1.length ∧
      ∀ row ∈ timestepEmbedding1 co si freqsF dim ts1,
        row.length = dim ∧ (dim % 2 = 1 → row.getLast? = some 0)) ∧
    ((timestepEmbedding2 co si freqsF dim ts2 t).length = t ∧
      ∀ grp ∈ timestepEmbedding2 co si freqsF dim ts2 t,
        grp.length = ts2.length ∧
        ∀ row ∈ grp, row.length = dim ∧
          (dim % 2 = 1 → row.getLast? = some 0)) := by
  have hfreqs : ((List.range (dim / 2)).map freqsF).length = dim / 2 := by simp
  have hrow : ∀ (x : ℚ),
      (timestepEmbeddingRow co si ((List.range (dim / 2)).map freqsF) dim x).length = dim ∧
      (dim % 2 = 1 →
        (timestepEmbeddingRow co si ((List.range (dim / 2)).map freqsF) dim x).getLast? =
          some 0) := by
    intro x
    exact ⟨timestepEmbeddingRow_length co si _ dim x hfreqs,
      fun h => timestepEmbeddingRow_oddPad co si _ dim x h⟩
  have h1 : ∀ (l : List ℚ),
      (timestepEmbedding1 co si freqsF dim l).length = l.length ∧
      ∀ row ∈ timestepEmbedding1 co si freqsF dim l,
        row.length = dim ∧ (dim % 2 = 1 → row.getLast? = some 0) := by
    intro l
    constructor
    · simp [timestepEmbedding1]
    · intro row hrowmem
      unfold timestepEmbedding1 at hrowmem
      simp only [List.mem_map] at hrowmem
      obtain ⟨x, _, hx⟩ := hrowmem
      rw [← hx]
      exact hrow x
  refine ⟨h1 ts1, ?_, ?_⟩
  · simp [timestepEmbedding2, transposeNT]
  · intro grp hgrp
    unfold timestepEmbedding2 at hgrp
    simp only [List.mem_map] at hgrp
    obtain ⟨col, hcolmem, hcol⟩ := hgrp
    have hcollen : col.length = ts2.length := by
      unfold transposeNT at hcolmem
      simp only [List.mem_map] at hcolmem
      obtain ⟨j, _, hj⟩ := hcolmem
      rw [← hj]; simp
    rw [← hcol]
    refine ⟨by rw [(h1 col).1, hcollen], (h1 col).2⟩

theorem c6_timestep_embedding_witness :
    ((∀ r ∈ [[(1 : ℚ), 2], [3, 4]], r.length = 2) ∧
      (((timestepEmbedding1 id id (fun n => (n : ℚ)) 5 [1, 2]).length = 2 ∧
        ∀ row ∈ timestepEmbedding1 id id (fun n => (n : ℚ)) 5 [1, 2],
          row.length = 5 ∧ (5 % 2 = 1 → row.getLast? = some 0)) ∧
      ((timestepEmbedding2 id id (fun n => (n : ℚ)) 5 [[1, 2], [3, 4]] 2).length = 2 ∧
        ∀ grp ∈ timestepEmbedding2 id id (fun n => (n : ℚ)) 5 [[1, 2], [3, 4]] 2,
          grp.length = 2 ∧
          ∀ row ∈ grp, row.length = 5 ∧
            (5 % 2 = 1 → row.getLast? = some 0)))) :=
  ⟨by decide,
    c6_timestep_embedding id id (fun n => (n : ℚ)) 5 [1, 2] [[1, 2], [3, 4]] 2
      (by decide)⟩

/-! ### C2: `SimpleDownsample` / `SimpleUpsample` length round-trip

Embedding of `SimpleDownsample.forward` (zipformer.py lines 879-905),
`SimpleUpsample.forward` (lines 917-927) and
`DownsampledZipformer2Encoder.forward` (lines 815-862).  A frame (the
batch×channel slice at one time step) is a `List ℚ`; the time axis is the
outer list. -/

/-- Scalar multiple of a frame. -/
def scaleFrame (w : ℚ) (fr : List ℚ) : List ℚ := fr.map (fun v => w * v)

/-- Elementwise sum of two frames. -/
def addFrames (a b : List ℚ) : List ℚ := List.zipWith (· + ·) a b

/-- `(src * weights).sum(dim=1)` for one block of `ds` consecutive frames:
scale each frame by its block weight and sum. -/
def blockWeightedSum (weights : List ℚ) (block : List (List ℚ)) : List ℚ :=
  match List.zipWith scaleFrame weights block with
  | [] => []
  | x :: xs => xs.foldl addFrames x

/-- `src.reshape(d_seq_len, ds, batch, channels)`: block `i` is the `ds`
frames starting at index `i * ds`. -/
def reshapeBlocks (dSeqLen ds : ℕ) (src : List (List ℚ)) :
    List (List (List ℚ)) :=
  (List.range dSeqLen).map fun i => (src.drop (i * ds)).take ds

/-- `SimpleDownsample.forward`: with `seq_len = src.length` it right-pads
`src` to `d_seq_len * ds` frames by repeating the last frame
(`d_seq_len = (seq_len + ds - 1) // ds`), reshapes into `d_seq_len` blocks of
`ds` frames, and reduces each block by the softmax-weighted sum
(`weights = self.bias.softmax(dim=0)`, kept abstract here as any length-`ds`
weight list since only the block structure matters for length claims). -/
def simpleDownsample (weights : List ℚ) (ds : ℕ) (src : List (List ℚ)) :
    List (List ℚ) :=
  let seqLen := src.length
  let dSeqLen := (seqLen + ds - 1) / ds
  let pad := dSeqLen * ds - seqLen
  let padded := src ++ List.replicate pad ((src.getLast?).getD [])
  (reshapeBlocks dSeqLen ds padded).map (blockWeightedSum weights)

/-- `SimpleUpsample.forward`: repeat every frame `upsample` times. -/
def simpleUpsample (upsample : ℕ) (src : List (List ℚ)) : List (List ℚ) :=
  src.flatMap (fun fr => List.replicate upsample fr)

/-- `DownsampledZipformer2Encoder.forward`: downsample, run the inner
encoder (given here as a function on the time axis), upsample, truncate to
the original length (`src[: src_orig.shape[0]]`), and combine with the
original input through the `out_combiner` bypass (elementwise over time). -/
def downsampledZipformer2EncoderForward (weights : List ℚ) (ds : ℕ)
    (encoder : List (List ℚ) → List (List ℚ))
    (outCombiner : List ℚ → List ℚ → List ℚ)
    (src : List (List ℚ)) : List (List ℚ) :=
  let srcOrig := src
  let down := simpleDownsample weights ds src
  let enc := encoder down
  let up := simpleUpsample ds enc
  let truncated := up.take srcOrig.length
  List.zipWith outCombiner srcOrig truncated

theorem simpleDownsample_length (weights : List ℚ) (ds : ℕ)
    (src : List (List ℚ)) :
    (simpleDownsample weights ds src).length = (src.length + ds - 1) / ds := by
  simp [simpleDownsample, reshapeBlocks]

theorem simpleUpsample_length (upsample : ℕ) (src : List (List ℚ)) :
    (simpleUpsample upsample src).length = src.length * upsample := by
  unfold simpleUpsample
  induction src with
  | nil => simp
  | cons x t ih => simp [ih]; ring

theorem ceilDiv_mul_ge (n ds : ℕ) (hds : 1 ≤ ds) (hn : 1 ≤ n) :
    n ≤ (n + ds - 1) / ds * ds := by
  have h1 : n + ds - 1 = (n - 1) + ds := by omega
  have h2 : (n + ds - 1) / ds = (n - 1) / ds + 1 := by
    rw [h1, Nat.add_div_right _ (by omega)]
  have h3 := Nat.div_add_mod (n - 1) ds
  have h4 : (n - 1) % ds < ds := Nat.mod_lt _ (by omega)
  have h5 : ((n - 1) / ds + 1) * ds = ds * ((n - 1) / ds) + ds := by ring
  rw [h2, h5]
  omega

/-- C2: for any downsample factor ≥ 1 and any nonempty input,
`SimpleUpsample` after `SimpleDownsample`, truncated to the original length,
has exactly the original time length; consequently
`DownsampledZipformer2Encoder.forward` preserves the time length whenever its
inner encoder does. -/
theorem c2_downsample_upsample_roundtrip (weights : List ℚ) (ds : ℕ)
    (encoder : List (List ℚ) → List (List ℚ))
    (outCombiner : List ℚ → List ℚ → List ℚ)
    (src : List (List ℚ)) (hds : 1 ≤ ds) (hne : src ≠ [])
    (hencLen : ∀ l, (encoder l).length = l.length) :
    ((simpleUpsample ds (simpleDownsample weights ds src)).take
        src.length).length = src.length ∧
    (downsampledZipformer2EncoderForward weights ds encoder outCombiner
        src).length = src.length := by
  have hn : 1 ≤ src.length := by
    cases src with
    | nil => exact absurd rfl hne
    | cons x t => simp
  have hup : (simpleUpsample ds (simpleDownsample weights ds src)).length =
      (src.length + ds - 1) / ds * ds := by
    rw [simpleUpsample_length, simpleDownsample_length]
  have hge : src.length ≤
      (simpleUpsample ds (simpleDownsample weights ds src)).length := by
    rw [hup]; exact ceilDiv_mul_ge src.length ds hds hn
  have htake : ((simpleUpsample ds (simpleDownsample weights ds src)).take
      src.length).length = src.length := by
    rw [List.length_take]
    omega
  refine ⟨htake, ?_⟩
  unfold downsampledZipformer2EncoderForward
  rw [List.length_zipWith]
  have henc : (simpleUpsample ds (encoder (simpleDownsample weights ds src))).length =
      (src.length + ds - 1) / ds * ds := by
    rw [simpleUpsample_length, hencLen, simpleDownsample_length]
  have hge2 : src.length ≤
      (simpleUpsample ds (encoder (simpleDownsample weights ds src))).length := by
    rw [henc]; exact ceilDiv_mul_ge src.length ds hds hn
  rw [List.length_take]
  omega

theorem c2_downsample_upsample_roundtrip_witness :
    (1 ≤ 2 ∧ ([[(1 : ℚ)], [2], [3]] : List (List ℚ)) ≠ []) ∧
    (((simpleUpsample 2 (simpleDownsample [1/2, 1/2] 2 [[(1 : ℚ)], [2], [3]])).take
        3).length = 3 ∧
      (downsampledZipformer2EncoderForward [1/2, 1/2] 2 id addFrames
        [[(1 : ℚ)], [2], [3]]).length = 3) :=
  ⟨⟨by decide, by decide⟩,
    c2_downsample_upsample_roundtrip [1/2, 1/2] 2 id addFrames
      [[(1 : ℚ)], [2], [3]] (by decide) (by decide) (fun l => rfl)⟩

/-! ### C5: the `CompactRelPositionalEncoding` cache

Embedding of `CompactRelPositionalEncoding.extend_pe` (zipformer.py lines
975-1024).  In the source, row `i` of the regenerated table is a fixed
elementwise function of the single offset `x_i = i - (T - 1)` (log
compression, atan, sines/cosines of `x_atan * freqs`, a final bias column),
with no dependence on `T` beyond the offset range `-(T-1) .. T-1`; that
per-offset row function is abstracted below as `g : ℤ → α` (it is
transcendental-valued, and the claim is about the cache structure, not the
row values). -/

/-- The table built by the regeneration branch of `extend_pe`: one row per
offset in `-(T-1) .. T-1`, so `2*T - 1` rows, row `i` holding the embedding
of offset `i - (T - 1)`. -/
def peTable {α : Type} (g : ℤ → α) (t : ℕ) : List α :=
  (List.range (2 * t - 1)).map fun (i : ℕ) => g ((i : ℤ) - ((t : ℤ) - 1))

/-- `extend_pe`: if a cached table exists and already has at least `2*T - 1`
rows it is kept as is (the source only converts dtype/device); otherwise the
table is regenerated for the new `T`. -/
def extendPe {α : Type} (g : ℤ → α) (pe : Option (List α)) (t : ℕ) : List α :=
  match pe with
  | some p => if 2 * t - 1 ≤ p.length then p else peTable g t
  | none => peTable g t

theorem peTable_length {α : Type} (g : ℤ → α) (t : ℕ) :
    (peTable g t).length = 2 * t - 1 := by
  simp [peTable]

theorem peTable_get? {α : Type} (g : ℤ → α) (t : ℕ) (j : ℕ)
    (hj : j < 2 * t - 1) :
    (peTable g t).get? j = some (g ((j : ℤ) - ((t : ℤ) - 1))) := by
  unfold peTable
  rw [List.get?_eq_getElem?, List.getElem?_map, List.getElem?_range hj]
  rfl

/-- C5: with a cached table for some previous length `T0`, a call with
`T ≤ T0` returns the cached table unchanged (no regeneration), while a call
with `T > T0` regenerates a table of `2*T - 1` rows spanning offsets
`-(T-1) .. T-1` whose rows at the previously covered offsets coincide exactly
with the old cached rows (the old table reappears as the middle slice of the
new one, shifted by `T - T0`). -/
theorem c5_pe_cache {α : Type} (g : ℤ → α) (t0 t : ℕ)
    (h0 : 1 ≤ t0) (h1 : 1 ≤ t) :
    (t ≤ t0 → extendPe g (some (peTable g t0)) t = peTable g t0) ∧
    (t0 < t →
      extendPe g (some (peTable g t0)) t = peTable g t ∧
      (peTable g t).length = 2 * t - 1 ∧
      ∀ j, j < 2 * t0 - 1 →
        (peTable g t).get? (j + (t - t0)) = (peTable g t0).get? j) := by
  constructor
  · intro hle
    simp only [extendPe]
    rw [if_pos]
    rw [peTable_length]
    omega
  · intro hlt
    refine ⟨?_, peTable_length g t, ?_⟩
    · simp only [extendPe]
      rw [if_neg]
      rw [peTable_length]
      omega
    · intro j hj
      rw [peTable_get? g t (j + (t - t0)) (by omega),
        peTable_get? g t0 j (by omega)]
      congr 1
      have ht0t : t0 ≤ t := by omega
      have : ((j + (t - t0) : ℕ) : ℤ) = (j : ℤ) + (t : ℤ) - (t0 : ℤ) := by
        push_cast [Nat.cast_sub ht0t]
        ring
      rw [this]
      ring

theorem c5_pe_cache_witness :
    (1 ≤ 3 ∧ 1 ≤ 2) ∧
    ((2 ≤ 3 → extendPe (fun z => z) (some (peTable (fun z => z) 3)) 2 =
        peTable (fun z => z) 3) ∧
      (3 < 2 →
        extendPe (fun z => z) (some (peTable (fun z => z) 3)) 2 =
          peTable (fun z => z) 2 ∧
        (peTable (fun z => z) 2).length = 2 * 2 - 1 ∧
        ∀ j, j < 2 * 3 - 1 →
          (peTable (fun z => z) 2).get? (j + (2 - 3)) =
            (peTable (fun z => z) 3).get? j)) :=
  ⟨⟨by decide, by decide⟩, c5_pe_cache (fun z => z) 3 2 (by decide) (by decide)⟩

/-! ### C7: per-layer warmup phases in `Zipformer2Encoder.__init__`

Embedding of zipformer.py lines 681-692: `delta = (1 / num_layers) *
(warmup_end - warmup_begin)`, then a loop assigns layer `i` the schedule
`ScheduledFloat((cur_begin, initial_layerdrop_rate), (cur_end,
final_layerdrop_rate))` with `cur_end = cur_begin + delta`, advancing
`cur_begin` to `cur_end` each iteration. -/

/-- Modelled from the spec: `ScheduledFloat((b, vb), (e, ve))` resolves at
training step `t` to the piecewise-linear interpolation of its breakpoints
(constant `vb` before `b`, constant `ve` after `e`); `scaling.py`, which
defines `ScheduledFloat`, is not among the provided sources. -/
def scheduledFloatValue (b vb e ve t : ℚ) : ℚ :=
  if t ≤ b then vb else if e ≤ t then ve else vb + (t - b) / (e - b) * (ve - vb)

/-- The `for i in range(num_layers)` loop of `Zipformer2Encoder.__init__`,
returning the `(cur_begin, cur_end)` pair given to layer `i`'s bypass
skip-rate schedule. -/
def warmupPhasesGo (delta : ℚ) : ℕ → ℚ → List (ℚ × ℚ)
  | 0, _ => []
  | n + 1, curBegin =>
    (curBegin, curBegin + delta) :: warmupPhasesGo delta n (curBegin + delta)

/-- The per-layer warmup sub-intervals built by `Zipformer2Encoder.__init__`. -/
def layerWarmupPhases (warmupBegin warmupEnd : ℚ) (numLayers : ℕ) :
    List (ℚ × ℚ) :=
  warmupPhasesGo ((1 / (numLayers : ℚ)) * (warmupEnd - warmupBegin))
    numLayers warmupBegin

theorem warmupPhasesGo_getD (delta : ℚ) (n i : ℕ) (curBegin : ℚ)
    (h : i < n) :
    (warmupPhasesGo delta n curBegin).getD i (0, 0) =
      (curBegin + i * delta, curBegin + (i + 1) * delta) := by
  induction n generalizing i curBegin with
  | zero => omega
  | succ m ih =>
    cases i with
    | zero => simp [warmupPhasesGo]
    | succ j =>
      have hj : j < m := by omega
      rw [warmupPhasesGo, List.getD_cons_succ, ih j (curBegin + delta) hj]
      simp only [Prod.mk.injEq]
      constructor <;> (push_cast; ring)

/-- C7: with `N = numLayers ≥ 1` layers and warmup interval
`[warmupBegin, warmupEnd)`, layer `i` receives the sub-interval
`[wb + i*Δ, wb + (i+1)*Δ)` with `Δ = (warmupEnd - warmupBegin) / N`: the
phases all have width `Δ`, consecutive phases abut exactly (layer `i` ends
where layer `i+1` begins), and within its phase layer `i`'s skip rate is the
linear interpolation from `initialRate` down to `finalRate` (value
`initialRate` at the phase start, `finalRate` at the phase end). -/
theorem c7_layer_warmup_partition (warmupBegin warmupEnd : ℚ)
    (numLayers : ℕ) (initialRate finalRate : ℚ) (i : ℕ)
    (hn : 1 ≤ numLayers) (hi : i < numLayers)
    (hlt : warmupBegin < warmupEnd) :
    ((layerWarmupPhases warmupBegin warmupEnd numLayers).getD i (0, 0)).1 =
      warmupBegin + i * ((warmupEnd - warmupBegin) / numLayers) ∧
    ((layerWarmupPhases warmupBegin warmupEnd numLayers).getD i (0, 0)).2 =
      warmupBegin + (i + 1) * ((warmupEnd - warmupBegin) / numLayers) ∧
    ((layerWarmupPhases warmupBegin warmupEnd numLayers).getD i (0, 0)).2 -
        ((layerWarmupPhases warmupBegin warmupEnd numLayers).getD i (0, 0)).1 =
      (warmupEnd - warmupBegin) / numLayers ∧
    (i + 1 < numLayers →
      ((layerWarmupPhases warmupBegin warmupEnd numLayers).getD i (0, 0)).2 =
        ((layerWarmupPhases warmupBegin warmupEnd numLayers).getD (i + 1)
          (0, 0)).1) ∧
    (∀ t : ℚ,
      ((layerWarmupPhases warmupBegin warmupEnd numLayers).getD i (0, 0)).1 ≤ t →
      t ≤ ((layerWarmupPhases warmupBegin warmupEnd numLayers).getD i (0, 0)).2 →
      scheduledFloatValue
        ((layerWarmupPhases warmupBegin warmupEnd numLayers).getD i (0, 0)).1
        initialRate
        ((layerWarmupPhases warmupBegin warmupEnd numLayers).getD i (0, 0)).2
        finalRate t =
      initialRate +
        (t - ((layerWarmupPhases warmupBegin warmupEnd numLayers).getD i
          (0, 0)).1) / ((warmupEnd - warmupBegin) / numLayers) *
          (finalRate - initialRate)) := by
  have hnQ : (0 : ℚ) < (numLayers : ℚ) := by
    exact_mod_cast Nat.pos_of_ne_zero (by omega)
  have hdelta : (1 / (numLayers : ℚ)) * (warmupEnd - warmupBegin) =
      (warmupEnd - warmupBegin) / numLayers := by
    field_simp
  have hdpos : 0 < (warmupEnd - warmupBegin) / (numLayers : ℚ) := by
    apply div_pos
    · linarith
    · exact hnQ
  have hget := warmupPhasesGo_getD
    ((1 / (numLayers : ℚ)) * (warmupEnd - warmupBegin)) numLayers i
    warmupBegin hi
  rw [hdelta] at hget
  unfold layerWarmupPhases
  rw [hdelta, hget]
  refine ⟨rfl, rfl, by ring, ?_, ?_⟩
  · intro hi1
    have hget1 := warmupPhasesGo_getD
      ((1 / (numLayers : ℚ)) * (warmupEnd - warmupBegin)) numLayers (i + 1)
      warmupBegin hi1
    rw [hdelta] at hget1
    rw [hget1]
    push_cast
    ring
  · intro t hbt hte
    set d : ℚ := (warmupEnd - warmupBegin) / numLayers with hd
    have hwidth : (warmupBegin + (i + 1) * d) - (warmupBegin + i * d) = d := by
      ring
    unfold scheduledFloatValue
    by_cases hcase1 : t ≤ warmupBegin + i * d
    · have ht : t = warmupBegin + i * d := le_antisymm hcase1 hbt
      rw [if_pos hcase1, ht]
      field_simp
    · rw [if_neg hcase1]
      by_cases hcase2 : warmupBegin + (i + 1) * d ≤ t
      · have ht : t = warmupBegin + (i + 1) * d := le_antisymm hte hcase2
        rw [if_pos hcase2, ht]
        have hne : d ≠ 0 := ne_of_gt hdpos
        field_simp
        ring
      · rw [if_neg hcase2, hwidth]

theorem c7_layer_warmup_partition_witness :
    (1 ≤ 2 ∧ 0 < 2 ∧ (0 : ℚ) < 8) ∧
    (((layerWarmupPhases 0 8 2).getD 0 (0, 0)).1 = 0 + 0 * ((8 - 0) / 2) ∧
      ((layerWarmupPhases 0 8 2).getD 0 (0, 0)).2 =
        0 + (0 + 1) * ((8 - 0) / 2) ∧
      ((layerWarmupPhases 0 8 2).getD 0 (0, 0)).2 -
          ((layerWarmupPhases 0 8 2).getD 0 (0, 0)).1 = (8 - 0) / 2 ∧
      (0 + 1 < 2 →
        ((layerWarmupPhases 0 8 2).getD 0 (0, 0)).2 =
          ((layerWarmupPhases 0 8 2).getD (0 + 1) (0, 0)).1) ∧
      (∀ t : ℚ, ((layerWarmupPhases 0 8 2).getD 0 (0, 0)).1 ≤ t →
        t ≤ ((layerWarmupPhases 0 8 2).getD 0 (0, 0)).2 →
        scheduledFloatValue ((layerWarmupPhases 0 8 2).getD 0 (0, 0)).1
          (1/2) ((layerWarmupPhases 0 8 2).getD 0 (0, 0)).2 (7/200) t =
        1/2 + (t - ((layerWarmupPhases 0 8 2).getD 0 (0, 0)).1) /
          ((8 - 0) / 2) * (7/200 - 1/2))) :=
  ⟨⟨by decide, by decide, by norm_num⟩,
    c7_layer_warmup_partition 0 8 2 (1/2) (7/200) 0 (by decide) (by decide)
      (by norm_num)⟩

/-! ### C9: `TTSZipformer.forward` never constructs an attention mask

Embedding of zipformer.py lines 236-285.  Each encoder stack is abstracted as
a function of its four arguments `(x, time_emb, src_key_padding_mask,
attn_mask)`; `forward` sets `attn_mask = None` (line 274) and passes it to
every stack in the loop (lines 276-282). -/

/-- An encoder stack as called by `TTSZipformer.forward`: input tensor,
optional time embedding, optional key-padding mask, optional attention
mask. -/
def EncoderStackFun (x te pm am : Type) : Type :=
  x → Option te → Option pm → Option am → x

/-- The encoder loop of `TTSZipformer.forward`: after `attn_mask = None`,
each module is applied in order with that `attn_mask`. -/
def ttsEncodersLoop {x te pm am : Type} (encoders : List (EncoderStackFun x te pm am))
    (x0 : x) (timeEmb : Option te) (paddingMask : Option pm) : x :=
  encoders.foldl (fun acc m => m acc timeEmb paddingMask none) x0

/-- `TTSZipformer.forward` (permutes are shape bookkeeping; `inProj` and
`outProj` are the input/output linear projections; the time-embedding
computation is folded into the `timeEmb` argument, cf. `ttsForwardE`
below which models its error behaviour). -/
def ttsZipformerForward {x te pm am : Type}
    (inProj outProj : x → x) (encoders : List (EncoderStackFun x te pm am))
    (x0 : x) (timeEmb : Option te) (paddingMask : Option pm) : x :=
  outProj (ttsEncodersLoop encoders (inProj x0) timeEmb paddingMask)

/-- C9: the output of `TTSZipformer.forward` depends on each encoder stack
only through the stack's behaviour at `attn_mask = None`: any two encoder
lists that agree whenever the attention mask is `None` (however much they
differ for non-`None` attention masks) produce identical forward outputs.
Hence no attention mask is ever constructed or passed — only the padding
mask restricts attention sources. -/
theorem c9_no_attn_mask {x te pm am : Type}
    (inProj outProj : x → x)
    (encoders encoders' : List (EncoderStackFun x te pm am))
    (x0 : x) (timeEmb : Option te) (paddingMask : Option pm)
    (hagree : List.Forall₂
      (fun m m' => ∀ (a : x) (t : Option te) (p : Option pm),
        m a t p none = m' a t p none) encoders encoders') :
    ttsZipformerForward inProj outProj encoders x0 timeEmb paddingMask =
      ttsZipformerForward inProj outProj encoders' x0 timeEmb paddingMask := by
  unfold ttsZipformerForward ttsEncodersLoop
  congr 1
  generalize inProj x0 = a
  induction hagree generalizing a with
  | nil => rfl
  | cons h _ ih =>
    simp only [List.foldl_cons]
    rw [h]
    exact ih _

theorem c9_no_attn_mask_witness :
    (∀ (a : ℚ) (t : Option ℚ) (p : Option ℚ),
      (fun (v : ℚ) (_ : Option ℚ) (_ : Option ℚ) (m : Option ℚ) =>
        match m with | none => v | some w => v + w) a t p none =
      (fun (v : ℚ) (_ : Option ℚ) (_ : Option ℚ) (_ : Option ℚ) => v) a t p none) ∧
    ttsZipformerForward (fun v => v + 1) (fun v => v * 2)
      [fun (v : ℚ) (_ : Option ℚ) (_ : Option ℚ) (m : Option ℚ) =>
        match m with | none => v | some w => v + w] 3 none (some 5) =
    ttsZipformerForward (fun v => v + 1) (fun v => v * 2)
      [fun (v : ℚ) (_ : Option ℚ) (_ : Option ℚ) (_ : Option ℚ) => v] 3 none
      (some 5) :=
  ⟨fun a t p => rfl,
    c9_no_attn_mask (fun v => v + 1) (fun v => v * 2) _ _ 3 none (some 5)
      (List.Forall₂.cons (fun a t p => rfl) List.Forall₂.nil)⟩

/-! ### C10: the timestep argument must match `use_time_embed`

Embedding of `TTSZipformer.forward` lines 259-272 together with
`Zipformer2Encoder.forward` lines 718-724.  Failures (the `TypeError` from
calling the `None` time-embedding MLP, and the `AssertionError` from
`assert time_emb is not None` / `assert time_emb is None`) are modelled with
`Except String`.  By construction (lines 167-224), `self.time_embed` is a
real MLP iff `use_time_embed`, and each stack's `self.time_emb` projection
exists iff `time_embed_dim != -1`, which `__init__` forces to equal
`use_time_embed`. -/

/-- `Zipformer2Encoder.forward`'s time-embedding gate: when the stack owns a
time-embedding projection (`hasTimeEmb`, i.e. `time_embed_dim != -1`) it
asserts `time_emb is not None` and projects it; otherwise it asserts
`time_emb is None`.  `body` is the rest of the stack (positional encoding
plus the layer loop). -/
def zipEncoderForwardE {x te : Type} (hasTimeEmb : Bool) (proj : te → te)
    (body : x → Option te → x) (src : x) (timeEmb : Option te) :
    Except String x :=
  if hasTimeEmb then
    match timeEmb with
    | none => Except.error "assert time_emb is not None"
    | some e => Except.ok (body src (some (proj e)))
  else
    match timeEmb with
    | some _ => Except.error "assert time_emb is None"
    | none => Except.ok (body src none)

/-- `TTSZipformer.forward` with its failure behaviour: if `t` is not `None`
the time embedding is computed and passed through `self.time_embed`, which is
`None` when `use_time_embed=False` (calling it raises); then the encoder
encoderStacks run in order, each gated by `zipEncoderForwardE` with
`hasTimeEmb = use_time_embed`. -/
def ttsForwardE {x te tt : Type} (useTimeEmbed : Bool)
    (timestepEmb : tt → te) (timeEmbedMlp : te → te) (proj : te → te)
    (encoderStacks : List (x → Option te → x)) (src : x) (t : Option tt) :
    Except String x :=
  let timeEmbE : Except String (Option te) :=
    match t with
    | some tv =>
      if useTimeEmbed then
        Except.ok (some (timeEmbedMlp (timestepEmb tv)))
      else
        Except.error "TypeError: self.time_embed is None and is not callable"
    | none => Except.ok none
  match timeEmbE with
  | Except.error e => Except.error e
  | Except.ok timeEmb =>
    encoderStacks.foldlM (fun acc body =>
      zipEncoderForwardE useTimeEmbed proj body acc timeEmb) src

/-- C10: the presence of `t` must match construction.  With
`use_time_embed = True`, any forward call with `t = None` fails (the first
encoder stack's `assert time_emb is not None` fires, and with at least one
stack the loop runs).  With `use_time_embed = False`, any call with a
non-`None` `t` fails (the `None` time-embedding MLP is invoked before any
stack runs).  Neither direction falls back silently. -/
theorem c10_time_embed_presence {x te tt : Type}
    (timestepEmb : tt → te) (timeEmbedMlp : te → te) (proj : te → te)
    (encoderStacks : List (x → Option te → x)) (src : x)
    (hne : encoderStacks ≠ []) :
    (ttsForwardE true timestepEmb timeEmbedMlp proj encoderStacks src none =
      Except.error "assert time_emb is not None") ∧
    (∀ tv : tt,
      ttsForwardE false timestepEmb timeEmbedMlp proj encoderStacks src (some tv) =
        Except.error "TypeError: self.time_embed is None and is not callable") := by
  constructor
  · cases encoderStacks with
    | nil => exact absurd rfl hne
    | cons b bs => rfl
  · intro tv
    rfl

theorem c10_time_embed_presence_witness :
    (([fun (v : ℚ) (_ : Option ℚ) => v] : List (ℚ → Option ℚ → ℚ)) ≠ []) ∧
    ((ttsForwardE true (fun q : ℚ => q) (fun q => q + 1) (fun q => q * 2)
        [fun (v : ℚ) (_ : Option ℚ) => v] 7 none =
      Except.error "assert time_emb is not None") ∧
    (∀ tv : ℚ,
      ttsForwardE false (fun q : ℚ => q) (fun q => q + 1) (fun q => q * 2)
        [fun (v : ℚ) (_ : Option ℚ) => v] 7 (some tv) =
        Except.error "TypeError: self.time_embed is None and is not callable")) :=
  ⟨by simp,
    c10_time_embed_presence (fun q : ℚ => q) (fun q => q + 1) (fun q => q * 2)
      [fun (v : ℚ) (_ : Option ℚ) => v] 7 (by simp)⟩

/-! ### C1: `RelPositionMultiheadAttentionWeights.forward` masking + softmax

Embedding of zipformer.py lines 1263-1298.  Both `masked_fill` calls and the
final `softmax(attn_scores, dim=-1)` act independently on each
(head, batch, tgt) row along the source axis, so the embedding works on one
such row: `scores` is the row of raw attention scores (q·k plus positional
scores), `attnMaskRow` is the row `attn_mask[(b,)t]` of the attention mask,
`keyPadRow` is `key_padding_mask[b]`.  `softmax` comes from `scaling.py`
(not in the provided sources) and is modelled from the spec as the
numerically-stable softmax `exp(x - max) / sum exp(x - max)`; the float
`exp` is an abstract `f : ℚ → ℚ`, constrained in the theorems only by the
facts the code comments rely on (nonnegativity, strict positivity on the
moderate range, underflow to exactly 0 for very negative arguments —
float32 `exp` underflows below about -104). -/

/-- `tensor.masked_fill(mask, v)` along one row: entries where the mask is
`True` are replaced by `v`. -/
def maskedFill (mask : List Bool) (v : ℚ) (xs : List ℚ) : List ℚ :=
  List.zipWith (fun m x => if m then v else x) mask xs

/-- Lines 1265-1281: `attn_scores.masked_fill(attn_mask, -1000)` followed by
`attn_scores.masked_fill(key_padding_mask.unsqueeze(1), -1000)`, restricted
to one (head, batch, tgt) row; a `None` mask is skipped. -/
def applyAttnMasks (attnMaskRow keyPadRow : Option (List Bool))
    (scores : List ℚ) : List ℚ :=
  match attnMaskRow, keyPadRow with
  | none, none => scores
  | none, some m2 => maskedFill m2 (-1000) scores
  | some m1, none => maskedFill m1 (-1000) scores
  | some m1, some m2 => maskedFill m2 (-1000) (maskedFill m1 (-1000) scores)

/-- Position `j` of the row is excluded by either mask. -/
def maskedAt : Option (List Bool) → Option (List Bool) → ℕ → Bool
  | none, none, _ => false
  | none, some m2, j => m2.getD j false
  | some m1, none, j => m1.getD j false
  | some m1, some m2, j => m1.getD j false || m2.getD j false

/-- Modelled from the spec: the numerically-stable softmax of `scaling.py`
along one row, with `f` standing for the floating-point `exp`. -/
def softmaxRow (f : ℚ → ℚ) (xs : List ℚ) : List ℚ :=
  let m := listMax xs
  let exps := xs.map fun x => f (x - m)
  exps.map fun e => e / exps.sum

/-- One row of the tensor returned by
`RelPositionMultiheadAttentionWeights.forward` (the dropout after the
softmax has `p = 0.0` in every instantiation in this file's source and is the
identity): mask application followed by softmax along the source axis. -/
def relPosAttnWeightsRow (f : ℚ → ℚ)
    (attnMaskRow keyPadRow : Option (List Bool)) (scores : List ℚ) :
    List ℚ :=
  softmaxRow f (applyAttnMasks attnMaskRow keyPadRow scores)

theorem maskedFill_length (mask : List Bool) (v : ℚ) (xs : List ℚ)
    (hlen : mask.length = xs.length) :
    (maskedFill mask v xs).length = xs.length := by
  unfold maskedFill
  rw [List.length_zipWith, hlen, min_self]

theorem maskedFill_getD (v : ℚ) (mask : List Bool) (xs : List ℚ) (j : ℕ)
    (hlen : mask.length = xs.length) (hj : j < xs.length) :
    (maskedFill mask v xs).getD j 0 =
      if mask.getD j false then v else xs.getD j 0 := by
  induction mask generalizing xs j with
  | nil =>
    simp at hlen
    omega
  | cons b bs ih =>
    cases xs with
    | nil => simp at hj
    | cons y ys =>
      cases j with
      | zero => simp [maskedFill]
      | succ k =>
        simp only [maskedFill, List.zipWith_cons_cons, List.getD_cons_succ]
        have hlen' : bs.length = ys.length := by
          simpa using hlen
        have hk : k < ys.length := by
          simpa using hj
        exact ih ys k hlen' hk

theorem applyAttnMasks_length (attnMaskRow keyPadRow : Option (List Bool))
    (scores : List ℚ)
    (ham : ∀ m, attnMaskRow = some m → m.length = scores.length)
    (hkp : ∀ m, keyPadRow = some m → m.length = scores.length) :
    (applyAttnMasks attnMaskRow keyPadRow scores).length = scores.length := by
  cases attnMaskRow with
  | none =>
    cases keyPadRow with
    | none => rfl
    | some m => exact maskedFill_length m _ scores (hkp m rfl)
  | some m1 =>
    have h1 := maskedFill_length m1 (-1000) scores (ham m1 rfl)
    cases keyPadRow with
    | none => exact h1
    | some m2 =>
      show (maskedFill m2 (-1000) (maskedFill m1 (-1000) scores)).length =
        scores.length
      rw [maskedFill_length m2 _ _ (by rw [h1]; exact hkp m2 rfl)]
      exact h1

theorem applyAttnMasks_getD (attnMaskRow keyPadRow : Option (List Bool))
    (scores : List ℚ) (j : ℕ)
    (ham : ∀ m, attnMaskRow = some m → m.length = scores.length)
    (hkp : ∀ m, keyPadRow = some m → m.length = scores.length)
    (hj : j < scores.length) :
    (applyAttnMasks attnMaskRow keyPadRow scores).getD j 0 =
      if maskedAt attnMaskRow keyPadRow j then -1000
      else scores.getD j 0 := by
  cases attnMaskRow with
  | none =>
    cases keyPadRow with
    | none => simp [applyAttnMasks, maskedAt]
    | some m2 =>
      show (maskedFill m2 (-1000) scores).getD j 0 = _
      rw [maskedFill_getD _ m2 scores j (hkp m2 rfl) hj,
        show maskedAt none (some m2) j = m2.getD j false from rfl]
  | some m1 =>
    have h1len := maskedFill_length m1 (-1000) scores (ham m1 rfl)
    have h1 := maskedFill_getD (-1000) m1 scores j (ham m1 rfl) hj
    cases keyPadRow with
    | none =>
      show (maskedFill m1 (-1000) scores).getD j 0 = _
      rw [h1, show maskedAt (some m1) none j = m1.getD j false from rfl]
    | some m2 =>
      show (maskedFill m2 (-1000) (maskedFill m1 (-1000) scores)).getD j 0 = _
      rw [maskedFill_getD _ m2 _ j (by rw [h1len]; exact hkp m2 rfl)
        (by rw [h1len]; exact hj), h1,
        show maskedAt (some m1) (some m2) j =
          (m1.getD j false || m2.getD j false) from rfl]
      cases hb1 : m1.getD j false <;> cases hb2 : m2.getD j false <;>
        simp [hb1, hb2]

theorem softmaxRow_sum (f : ℚ → ℚ) (xs : List ℚ) (hne : xs ≠ [])
    (hnn : ∀ x, 0 ≤ f x) (hpos0 : 0 < f 0) :
    (softmaxRow f xs).sum = 1 := by
  unfold softmaxRow
  have hmem : f 0 ∈ xs.map fun x => f (x - listMax xs) := by
    rw [List.mem_map]
    exact ⟨listMax xs, listMax_mem hne, by rw [sub_self]⟩
  have hallnn : ∀ y ∈ xs.map fun x => f (x - listMax xs), 0 ≤ y := by
    intro y hy
    rw [List.mem_map] at hy
    obtain ⟨x, _, hx⟩ := hy
    rw [← hx]
    exact hnn _
  have hsumpos : 0 < (xs.map fun x => f (x - listMax xs)).sum :=
    sum_pos_of_mem hmem hpos0 hallnn
  rw [sum_map_div]
  exact div_self (ne_of_gt hsumpos)

theorem softmaxRow_getD (f : ℚ → ℚ) (xs : List ℚ) (j : ℕ)
    (hj : j < xs.length) :
    (softmaxRow f xs).getD j 0 =
      f (xs.getD j 0 - listMax xs) /
        (xs.map fun x => f (x - listMax xs)).sum := by
  unfold softmaxRow
  have hj1 : j < (xs.map fun x => f (x - listMax xs)).length := by
    simpa using hj
  have hj2 : j < ((xs.map fun x => f (x - listMax xs)).map
      fun e => e / (xs.map fun x => f (x - listMax xs)).sum).length := by
    simpa using hj
  rw [List.getD_eq_getElem _ _ hj2, List.getElem_map, List.getElem_map,
    List.getD_eq_getElem _ _ hj]

theorem mem_le_fifty {scores : List ℚ}
    (hbound : ∀ s ∈ scores, -50 ≤ s ∧ s ≤ 50)
    {attnMaskRow keyPadRow : Option (List Bool)}
    (ham : ∀ m, attnMaskRow = some m → m.length = scores.length)
    (hkp : ∀ m, keyPadRow = some m → m.length = scores.length) :
    ∀ x ∈ applyAttnMasks attnMaskRow keyPadRow scores, x ≤ 50 := by
  intro x hx
  rw [List.mem_iff_getElem] at hx
  obtain ⟨i, hilen, hi⟩ := hx
  have hiscores : i < scores.length := by
    rw [applyAttnMasks_length attnMaskRow keyPadRow scores ham hkp] at hilen
    exact hilen
  have := applyAttnMasks_getD attnMaskRow keyPadRow scores i ham hkp hiscores
  rw [List.getD_eq_getElem _ _ hilen, hi] at this
  by_cases hm : maskedAt attnMaskRow keyPadRow i
  · rw [if_pos hm] at this
    rw [this]; norm_num
  · rw [if_neg hm] at this
    rw [this]
    have hmem : scores.getD i 0 ∈ scores := by
      rw [List.getD_eq_getElem _ _ hiscores]
      exact List.getElem_mem _
    exact (hbound _ hmem).2

/-- C1 (amended): for an abstract float `exp` that is nonnegative, strictly
positive on arguments ≥ -100 and exactly 0 on arguments ≤ -600 (true of
float32/float64 `exp`), and raw scores bounded by ±50 (the module penalizes
|score| > 25 as "outside the normal range"), each row of the returned
attention weights sums exactly to 1, and an entry at a position excluded by
either mask is exactly 0 PROVIDED the row has at least one unmasked source
position.  (The proviso is forced: a fully-masked row comes out uniform, not
zero — see the counterexample.) -/
theorem c1_attn_weights_amended (f : ℚ → ℚ)
    (hnn : ∀ x, 0 ≤ f x)
    (hpos : ∀ x, -100 ≤ x → 0 < f x)
    (hzero : ∀ x, x ≤ -600 → f x = 0)
    (scores : List ℚ) (hne : scores ≠ [])
    (hbound : ∀ s ∈ scores, -50 ≤ s ∧ s ≤ 50)
    (attnMaskRow keyPadRow : Option (List Bool))
    (ham : ∀ m, attnMaskRow = some m → m.length = scores.length)
    (hkp : ∀ m, keyPadRow = some m → m.length = scores.length) :
    (relPosAttnWeightsRow f attnMaskRow keyPadRow scores).sum = 1 ∧
    (∀ j, j < scores.length → maskedAt attnMaskRow keyPadRow j = true →
      (∃ j', j' < scores.length ∧ maskedAt attnMaskRow keyPadRow j' = false) →
      (relPosAttnWeightsRow f attnMaskRow keyPadRow scores).getD j 0 = 0) := by
  have hlen := applyAttnMasks_length attnMaskRow keyPadRow scores ham hkp
  have hne' : applyAttnMasks attnMaskRow keyPadRow scores ≠ [] := by
    intro h
    rw [h] at hlen
    simp at hlen
    exact hne (List.eq_nil_of_length_eq_zero hlen.symm)
  constructor
  · exact softmaxRow_sum f _ hne' hnn (hpos 0 (by norm_num))
  · intro j hj hmask hex
    obtain ⟨j', hj', hunmask⟩ := hex
    unfold relPosAttnWeightsRow
    rw [softmaxRow_getD f _ j (by rw [hlen]; exact hj)]
    -- the row maximum is one of the unmasked scores, hence in [-50, 50]
    have hmax_le : listMax (applyAttnMasks attnMaskRow keyPadRow scores) ≤ 50 :=
      listMax_le hne' (mem_le_fifty hbound ham hkp)
    have hj'mem : (applyAttnMasks attnMaskRow keyPadRow scores).getD j' 0 ∈
        applyAttnMasks attnMaskRow keyPadRow scores := by
      rw [List.getD_eq_getElem _ _ (by rw [hlen]; exact hj')]
      exact List.getElem_mem _
    have hj'val := applyAttnMasks_getD attnMaskRow keyPadRow scores j' ham hkp hj'
    rw [if_neg (by rw [hunmask]; simp)] at hj'val
    have hj'score : scores.getD j' 0 ∈ scores := by
      rw [List.getD_eq_getElem _ _ hj']
      exact List.getElem_mem _
    have hmax_ge : -50 ≤ listMax (applyAttnMasks attnMaskRow keyPadRow scores) := by
      have h1 := le_listMax hj'mem
      rw [hj'val] at h1
      exact le_trans (hbound _ hj'score).1 h1
    have hjval := applyAttnMasks_getD attnMaskRow keyPadRow scores j ham hkp hj
    rw [if_pos hmask] at hjval
    rw [hjval]
    have harg : (-1000 : ℚ) - listMax (applyAttnMasks attnMaskRow keyPadRow scores) ≤
        -600 := by linarith
    rw [hzero _ harg, zero_div]

/-- A concrete function satisfying the abstract-`exp` hypotheses of the C1
theorems (used by the witness and the counterexample; it agrees with the real
`exp` on the facts those theorems use: positive for moderate arguments,
exactly 0 deep in the underflow range, `f 0 = 1`). -/
def expWitnessFun : ℚ → ℚ := fun x => if x < -300 then 0 else 1

theorem expWitnessFun_nonneg (x : ℚ) : 0 ≤ expWitnessFun x := by
  unfold expWitnessFun
  split <;> norm_num

theorem expWitnessFun_pos (x : ℚ) (hx : -100 ≤ x) : 0 < expWitnessFun x := by
  unfold expWitnessFun
  rw [if_neg (by linarith)]
  norm_num

theorem expWitnessFun_zero (x : ℚ) (hx : x ≤ -600) : expWitnessFun x = 0 := by
  unfold expWitnessFun
  rw [if_pos (by linarith)]

theorem c1_attn_weights_amended_witness :
    ((∀ x : ℚ, 0 ≤ expWitnessFun x) ∧
      ([(10 : ℚ), 0] ≠ []) ∧
      (∀ s ∈ [(10 : ℚ), 0], -50 ≤ s ∧ s ≤ 50)) ∧
    ((relPosAttnWeightsRow expWitnessFun none
        (some [false, true]) [(10 : ℚ), 0]).sum = 1 ∧
      (∀ j, j < ([(10 : ℚ), 0] : List ℚ).length →
        maskedAt none (some [false, true]) j = true →
        (∃ j', j' < ([(10 : ℚ), 0] : List ℚ).length ∧
          maskedAt none (some [false, true]) j' = false) →
        (relPosAttnWeightsRow expWitnessFun none
          (some [false, true]) [(10 : ℚ), 0]).getD j 0 = 0)) :=
  ⟨⟨expWitnessFun_nonneg, by decide, by decide⟩,
    c1_attn_weights_amended expWitnessFun
      expWitnessFun_nonneg expWitnessFun_pos expWitnessFun_zero
      [(10 : ℚ), 0] (by decide) (by decide) none (some [false, true])
      (fun m h => by cases h) (fun m h => by cases h; rfl)⟩

/-- C1 counterexample to the claim as stated: with every source position
masked by the key-padding mask (a fully padded sequence), the row of
attention weights is uniform (1/2, 1/2 here), not 0, at the masked
positions: the stable softmax subtracts the row max, so the all-(-1000) row
becomes all-0 and `exp` gives equal positive weights (`exp(0) = 1`, matched
by the concrete `f` used here).  So "every entry at a masked position equals
exactly 0" fails. -/
theorem c1_attn_weights_counterexample :
    maskedAt none (some [true, true]) 0 = true ∧
    relPosAttnWeightsRow expWitnessFun none
      (some [true, true]) [(0 : ℚ), 0] = [1/2, 1/2] ∧
    ((1 : ℚ)/2 ≠ 0) := by
  refine ⟨rfl, ?_, by norm_num⟩
  have hmf : applyAttnMasks none (some [true, true]) [(0 : ℚ), 0] =
      [-1000, -1000] := by
    simp [applyAttnMasks, maskedFill]
  have hmax : listMax [(-1000 : ℚ), -1000] = -1000 := by
    simp [listMax]
  unfold relPosAttnWeightsRow
  rw [hmf]
  simp only [softmaxRow, hmax]
  norm_num [expWitnessFun]

/-! ### C8 / C4 shared model: `BypassModule` and the stochastic gates

Embedding of `BypassModule._get_bypass_scale` / `forward` (zipformer.py lines
762-796) and `Zipformer2EncoderLayer.get_sequence_dropout_mask` (lines
456-468).  Randomness is modelled by an explicit stream of uniform-[0,1]
draws (`List ℚ`); each `torch.rand` / `random.random()` call consumes draws
from the front of the stream and returns the rest.  Schedule objects
(`ScheduledFloat`) enter as their already-resolved rational value at the
current training step, matching the `float(self.x)` calls in the source. -/

/-- One `random.random()` draw from the stream. -/
def drawRand (rng : List ℚ) : ℚ × List ℚ := (rng.headD 0, rng.tail)

/-- Modelled from the spec: `limit_param_value(x, min, max)` from
`scaling.py` (not in the provided sources) clamps the parameter's value into
the scheduled `[min, max]` bounds. -/
def limitParamValue (x : List ℚ) (lo hi : ℚ) : List ℚ :=
  x.map fun v => min hi (max lo v)

/-- The value returned by `_get_bypass_scale`: either the per-channel vector
(shape `(num_channels,)`) or, after per-sequence masking, a per-sequence
matrix (shape `(batch_size, num_channels)`). -/
inductive BypassScale where
  | perChannel (v : List ℚ)
  | perSequence (m : List (List ℚ))
deriving DecidableEq

/-- All scalar entries of a bypass scale. -/
def scaleEntries : BypassScale → List ℚ
  | .perChannel v => v
  | .perSequence m => m.flatten

/-- `BypassModule._get_bypass_scale` (lines 762-788): outside training (or
under jit scripting/tracing) the raw learnable `bypass_scale` parameter is
returned unchanged; in training the parameter is clamped by
`limit_param_value` into `[scale_min, scale_max]`, then with nonzero
`skip_rate` a per-sequence mask `rand(batch,1) > skip_rate` multiplies it (0
rows = layer skipped), and with nonzero `straight_through_rate` a mask
`rand(batch,1) < straight_through_rate` is `torch.maximum`-ed in (1 rows =
straight through). -/
def getBypassScale (training jitScripting jitTracing : Bool)
    (bypassScaleParam : List ℚ) (scaleMin scaleMax skipRate stRate : ℚ)
    (batchSize : ℕ) (rng : List ℚ) : BypassScale × List ℚ :=
  -- the two sequential `if`s of the source (skip mask, then straight-through
  -- mask on the result) are expanded into their four joint cases; when both
  -- fire, the straight-through draws come after the `batchSize` skip draws.
  if jitScripting = true ∨ jitTracing = true ∨ training = false then
    (.perChannel bypassScaleParam, rng)
  else if skipRate = 0 then
    if stRate = 0 then
      (.perChannel (limitParamValue bypassScaleParam scaleMin scaleMax), rng)
    else
      (.perSequence
        (((rng.take batchSize).map fun r => if r < stRate then (1 : ℚ) else 0).map
          fun mk => (limitParamValue bypassScaleParam scaleMin scaleMax).map
            fun x => max x mk),
        rng.drop batchSize)
  else
    if stRate = 0 then
      (.perSequence
        (((rng.take batchSize).map fun r => if skipRate < r then (1 : ℚ) else 0).map
          fun mk => (limitParamValue bypassScaleParam scaleMin scaleMax).map
            fun v => v * mk),
        rng.drop batchSize)
    else
      (.perSequence
        (List.zipWith (fun row mk => row.map fun x => max x mk)
          (((rng.take batchSize).map fun r => if skipRate < r then (1 : ℚ) else 0).map
            fun mk => (limitParamValue bypassScaleParam scaleMin scaleMax).map
              fun v => v * mk)
          (((rng.drop batchSize).take batchSize).map
            fun r => if r < stRate then (1 : ℚ) else 0)),
        (rng.drop batchSize).drop batchSize)

/-- `BypassModule.forward` combination per time frame and channel:
`src_orig + (src - src_orig) * bypass_scale` with a per-channel scale. -/
def bypassApply (scale srcOrig src : List ℚ) : List ℚ :=
  List.zipWith3 (fun c o s => o + (s - o) * c) scale srcOrig src

theorem limitParamValue_mem {x : List ℚ} {lo hi : ℚ} (hlo : lo ≤ hi) :
    ∀ v ∈ limitParamValue x lo hi, lo ≤ v ∧ v ≤ hi := by
  intro v hv
  unfold limitParamValue at hv
  rw [List.mem_map] at hv
  obtain ⟨w, _, hw⟩ := hv
  constructor
  · rw [← hw]
    exact le_min hlo (le_max_left lo w)
  · rw [← hw]
    exact min_le_left hi _

theorem mem_zipWith_imp {α β γ : Type} {f : α → β → γ} {l1 : List α}
    {l2 : List β} {x : γ} (h : x ∈ List.zipWith f l1 l2) :
    ∃ a b, a ∈ l1 ∧ b ∈ l2 ∧ x = f a b := by
  induction l1 generalizing l2 with
  | nil => simp at h
  | cons a t ih =>
    cases l2 with
    | nil => simp at h
    | cons b t2 =>
      rw [List.zipWith_cons_cons] at h
      rcases List.mem_cons.mp h with h1 | h1
      · exact ⟨a, b, by simp, by simp, h1⟩
      · obtain ⟨a', b', ha, hb, hx⟩ := ih h1
        exact ⟨a', b', by simp [ha], by simp [hb], hx⟩

theorem maskVal_cases (c : Prop) [Decidable c] :
    (if c then (1 : ℚ) else 0) = 1 ∨ (if c then (1 : ℚ) else 0) = 0 := by
  split
  · exact Or.inl rfl
  · exact Or.inr rfl

theorem mulMask_range {v mk : ℚ} (hv : 0 ≤ v ∧ v ≤ 1)
    (hm : mk = 1 ∨ mk = 0) : 0 ≤ v * mk ∧ v * mk ≤ 1 := by
  rcases hm with h | h <;> rw [h] <;> simp [hv.1, hv.2]

theorem maxMask_range {v mk : ℚ} (hv : 0 ≤ v ∧ v ≤ 1)
    (hm : mk = 1 ∨ mk = 0) : 0 ≤ max v mk ∧ max v mk ≤ 1 := by
  rcases hm with h | h <;> rw [h]
  · constructor
    · exact le_trans zero_le_one (le_max_right v 1)
    · exact max_le hv.2 le_rfl
  · constructor
    · exact le_max_right v 0
    · exact max_le hv.2 (by norm_num)

/-- C8 counterexample to the claim as stated: outside training,
`_get_bypass_scale` returns the raw learnable parameter with no clamping at
all, so with a parameter value 3/2 the factor applied by `forward` to
`(src - src_orig)` is 3/2 — not in [0,1] and not clamped to the scheduled
bounds (`scale_max = 1` here): with `src_orig = 0`, `src = 1` the output is
3/2.  (Parameter, rates and masks are concrete; the rng stream is empty
because eval mode draws nothing.) -/
theorem c8_bypass_scale_counterexample :
    (getBypassScale false false false [3/2] (1/2) 1 (1/2) 0 2 []).1 =
      BypassScale.perChannel [3/2] ∧
    ¬ ((3/2 : ℚ) ≤ 1) ∧
    bypassApply [3/2] [0] [1] = [3/2] := by
  refine ⟨rfl, by norm_num, ?_⟩
  unfold bypassApply
  norm_num [List.zipWith3]

/-- C8 (amended): during training (no jit), every entry of the bypass scale
returned by `_get_bypass_scale` lies in `[0, 1]` whenever the scheduled
bounds satisfy `0 ≤ scale_min ≤ scale_max ≤ 1` (as the defaults do:
`scale_min` goes from 0.9 to 0.2, `scale_max = 1`): entries are the clamped
parameter values, zeros from per-sequence layer-skip, or values capped at 1
by the straight-through mask.  Outside training the raw parameter is
returned unchanged — unclamped — and neither stochastic zeroing nor
straight-through happens (no randomness is consumed). -/
theorem c8_bypass_scale_amended (bypassScaleParam : List ℚ)
    (scaleMin scaleMax skipRate stRate : ℚ) (batchSize : ℕ) (rng : List ℚ)
    (h0 : 0 ≤ scaleMin) (h1 : scaleMin ≤ scaleMax) (h2 : scaleMax ≤ 1) :
    (∀ v ∈ scaleEntries (getBypassScale true false false bypassScaleParam
        scaleMin scaleMax skipRate stRate batchSize rng).1,
      0 ≤ v ∧ v ≤ 1) ∧
    (∀ training jitScripting jitTracing : Bool, training = false →
      getBypassScale training jitScripting jitTracing bypassScaleParam
        scaleMin scaleMax skipRate stRate batchSize rng =
        (BypassScale.perChannel bypassScaleParam, rng)) := by
  constructor
  · have hclamp : ∀ v ∈ limitParamValue bypassScaleParam scaleMin scaleMax,
        0 ≤ v ∧ v ≤ 1 := by
      intro v hv
      have := limitParamValue_mem h1 v hv
      exact ⟨le_trans h0 this.1, le_trans this.2 h2⟩
    intro v hv
    unfold getBypassScale at hv
    rw [if_neg (by simp)] at hv
    by_cases hsk : skipRate = 0
    · rw [if_pos hsk] at hv
      by_cases hst : stRate = 0
      · rw [if_pos hst] at hv
        exact hclamp v hv
      · rw [if_neg hst] at hv
        simp only [scaleEntries, List.mem_flatten] at hv
        obtain ⟨row, hrowmem, hvrow⟩ := hv
        obtain ⟨mk, hmkmem, hrow⟩ := List.mem_map.mp hrowmem
        rw [← hrow] at hvrow
        obtain ⟨w, hw, hwv⟩ := List.mem_map.mp hvrow
        obtain ⟨r, _, hr⟩ := List.mem_map.mp hmkmem
        rw [← hwv]
        exact maxMask_range (hclamp w hw) (by rw [← hr]; exact maskVal_cases _)
    · rw [if_neg hsk] at hv
      by_cases hst : stRate = 0
      · rw [if_pos hst] at hv
        simp only [scaleEntries, List.mem_flatten] at hv
        obtain ⟨row, hrowmem, hvrow⟩ := hv
        obtain ⟨mk, hmkmem, hrow⟩ := List.mem_map.mp hrowmem
        rw [← hrow] at hvrow
        obtain ⟨w, hw, hwv⟩ := List.mem_map.mp hvrow
        obtain ⟨r, _, hr⟩ := List.mem_map.mp hmkmem
        rw [← hwv]
        exact mulMask_range (hclamp w hw) (by rw [← hr]; exact maskVal_cases _)
      · rw [if_neg hst] at hv
        simp only [scaleEntries, List.mem_flatten] at hv
        obtain ⟨row, hrowmem, hvrow⟩ := hv
        obtain ⟨baseRow, mk, hbase, hmk2, hrow⟩ := mem_zipWith_imp hrowmem
        rw [hrow] at hvrow
        obtain ⟨w, hw, hwv⟩ := List.mem_map.mp hvrow
        obtain ⟨mkSkip, hmkSkipMem, hbaseEq⟩ := List.mem_map.mp hbase
        rw [← hbaseEq] at hw
        obtain ⟨w0, hw0, hww⟩ := List.mem_map.mp hw
        obtain ⟨rSkip, _, hrSkip⟩ := List.mem_map.mp hmkSkipMem
        obtain ⟨rSt, _, hrSt⟩ := List.mem_map.mp hmk2
        rw [← hwv, ← hww]
        exact maxMask_range
          (mulMask_range (hclamp w0 hw0)
            (by rw [← hrSkip]; exact maskVal_cases _))
          (by rw [← hrSt]; exact maskVal_cases _)
  · intro training jitScripting jitTracing htr
    unfold getBypassScale
    rw [if_pos (Or.inr (Or.inr htr))]

theorem c8_bypass_scale_amended_witness :
    ((0 : ℚ) ≤ 1/5 ∧ (1/5 : ℚ) ≤ 1 ∧ (1 : ℚ) ≤ 1) ∧
    ((∀ v ∈ scaleEntries (getBypassScale true false false [2] (1/5) 1 (1/2) 0
        1 [3/4]).1, 0 ≤ v ∧ v ≤ 1) ∧
      (∀ training jitScripting jitTracing : Bool, training = false →
        getBypassScale training jitScripting jitTracing [2] (1/5) 1 (1/2) 0
          1 [3/4] = (BypassScale.perChannel [2], [3/4]))) :=
  ⟨⟨by norm_num, by norm_num, le_refl 1⟩,
    c8_bypass_scale_amended [2] (1/5) 1 (1/2) 0 1 [3/4] (by norm_num)
      (by norm_num) (le_refl 1)⟩

/-! ### C4: inference is deterministic

Embedding of the stochastic control flow of zipformer.py:
`Zipformer2EncoderLayer.get_sequence_dropout_mask` (456-468) /
`sequence_dropout` (470-479) / `forward` (481-634),
`RelPositionMultiheadAttentionWeights.forward` (1141-1298, the random
decisions: positional-score skip, score penalty, entropy-print draw,
post-softmax dropout), `BypassModule._get_bypass_scale` (above), and the
stack/encoder loops (694-736, 276-282).  The deterministic tensor math of
each submodule is abstracted into opaque functions (`LayerOps`) applied in
source order — the claim is about randomness, and in eval mode every
submodule (including the dropout layers inside them) computes a fixed
function of its input; scheduled rates enter as their resolved values
(`LayerCfg`). -/

/-- `get_sequence_dropout_mask` (lines 456-468): `None` when the rate is 0,
training is off, or jit is active; otherwise a per-sequence 0/1 mask drawn
from `torch.rand(batch_size, 1) > dropout_rate`. -/
def getSequenceDropoutMask (training jitScripting jitTracing : Bool)
    (dropoutRate : ℚ) (batchSize : ℕ) (rng : List ℚ) :
    Option (List ℚ) × List ℚ :=
  if dropoutRate = 0 ∨ training = false ∨ jitScripting = true ∨
      jitTracing = true then
    (none, rng)
  else
    (some ((rng.take batchSize).map
      fun r => if dropoutRate < r then (1 : ℚ) else 0),
      rng.drop batchSize)

/-- The deterministic tensor transforms of one encoder layer, abstracted:
`T` is the residual-stream tensor type, `W` the attention-weights type. -/
structure LayerOps (T W : Type) where
  addT : T → T → T
  ff1 : T → T
  ff2 : T → T
  ff3 : T → T
  attnScores : T → W
  addPosScores : W → W
  penalizeScores : W → W
  softmaxW : W → W
  dropoutW : W → ℚ → W
  headSlice : W → W
  constAvg : W → W
  nonlinAttn : T → W → T
  selfAttn1 : T → W → T
  selfAttn2 : T → W → T
  convMod1 : T → T
  convMod2 : T → T
  applySeqMask : T → List ℚ → T
  balancerNa : T → T
  balancerFf2 : T → T
  balancerFf3 : T → T
  balancer1 : T → T
  biasNorm : T → T
  balancer2 : T → T
  whitenT : T → T
  bypassCombine : T → T → BypassScale → T

/-- Per-layer configuration: every `ScheduledFloat` rate resolved at the
current step, the bypass parameters, and the layer inputs that matter for
control flow. -/
structure LayerCfg (T : Type) where
  attnSkipRate : ℚ
  convSkipRate : ℚ
  ff2SkipRate : ℚ
  ff3SkipRate : ℚ
  constAttnRate : ℚ
  posSkipRate : ℚ
  attnDropoutP : ℚ
  bypassMidParam : List ℚ
  bypassMidMin : ℚ
  bypassMidMax : ℚ
  bypassMidSkip : ℚ
  bypassMidSt : ℚ
  bypassParam : List ℚ
  bypassMin : ℚ
  bypassMax : ℚ
  bypassSkip : ℚ
  bypassSt : ℚ
  useConv : Bool
  timeEmb : Option T
  batchSize : ℕ

/-- `RelPositionMultiheadAttentionWeights.forward` control flow: positional
scores are always used outside training (`not self.training or
random.random() >= pos_emb_skip_rate`, short-circuited so eval draws
nothing); the score penalty fires with probability 0.1 in training only;
the entropy-print check draws one `random.random()` whenever jit is off
(output unaffected); post-softmax dropout draws only when training with
nonzero `p`.  Mask application is deterministic and folded into
`softmaxW`'s input (cf. the C1 section). -/
def attnWeightsForward {T W : Type} (training jitScripting jitTracing : Bool)
    (ops : LayerOps T W) (posSkipRate dropoutP : ℚ) (src : T)
    (rng : List ℚ) : W × List ℚ :=
  let base := ops.attnScores src
  let posStep : Bool × List ℚ :=
    if jitScripting = true ∨ jitTracing = true then (true, rng)
    else if training = false then (true, rng)
    else (decide (posSkipRate ≤ (drawRand rng).1), (drawRand rng).2)
  let scores1 := if posStep.1 then ops.addPosScores base else base
  let penStep : W × List ℚ :=
    if jitScripting = true ∨ jitTracing = true then (scores1, posStep.2)
    else if training = true then
      (if (drawRand posStep.2).1 < 1/10 then ops.penalizeScores scores1
        else scores1, (drawRand posStep.2).2)
    else (scores1, posStep.2)
  let w := ops.softmaxW penStep.1
  let rng3 :=
    if jitScripting = true ∨ jitTracing = true then penStep.2
    else (drawRand penStep.2).2
  if training = true ∧ dropoutP ≠ 0 then
    (ops.dropoutW w (drawRand rng3).1, (drawRand rng3).2)
  else (w, rng3)

/-- `Zipformer2EncoderLayer.forward` (lines 481-634) with the submodule math
abstracted and every random decision explicit, in source order. -/
def layerForward {T W : Type} (training jitScripting jitTracing : Bool)
    (ops : LayerOps T W) (cfg : LayerCfg T) (src0 : T) (rng : List ℚ) :
    T × List ℚ :=
  let srcOrig := src0
  let attentionSkipRate : ℚ :=
    if jitScripting = true ∨ jitTracing = true then 0
    else if training = true then cfg.attnSkipRate else 0
  let aw := attnWeightsForward training jitScripting jitTracing ops
    cfg.posSkipRate cfg.attnDropoutP src0 rng
  let attnWeights := aw.1
  let src1 := match cfg.timeEmb with
    | none => src0
    | some te => ops.addT src0 te
  let src2 := ops.addT src1 (ops.ff1 src1)
  let dm := getSequenceDropoutMask training jitScripting jitTracing
    attentionSkipRate cfg.batchSize aw.2
  let selfAttnDropoutMask := dm.1
  let selAw : W × List ℚ :=
    if jitScripting = true ∨ jitTracing = true then
      (ops.headSlice attnWeights, dm.2)
    else if training = true then
      (if (drawRand dm.2).1 < cfg.constAttnRate then
        ops.constAvg (ops.headSlice attnWeights)
      else ops.headSlice attnWeights, (drawRand dm.2).2)
    else (ops.headSlice attnWeights, dm.2)
  let na := ops.balancerNa (ops.nonlinAttn src2 selAw.1)
  let src3 := ops.addT src2 (match selfAttnDropoutMask with
    | none => na
    | some mk => ops.applySeqMask na mk)
  let sa1 := ops.selfAttn1 src3 attnWeights
  let src4 := ops.addT src3 (match selfAttnDropoutMask with
    | none => sa1
    | some mk => ops.applySeqMask sa1 mk)
  let conv1Step : T × List ℚ :=
    if cfg.useConv = true then
      let convSkipRate : ℚ :=
        if jitScripting = true ∨ jitTracing = true then 0
        else if training = true then cfg.convSkipRate else 0
      let src5 := match cfg.timeEmb with
        | none => src4
        | some te => ops.addT src4 te
      let c := ops.convMod1 src5
      let dmc := getSequenceDropoutMask training jitScripting jitTracing
        convSkipRate cfg.batchSize selAw.2
      (ops.addT src5 (match dmc.1 with
        | none => c
        | some mk => ops.applySeqMask c mk), dmc.2)
    else (src4, selAw.2)
  let ff2SkipRate : ℚ :=
    if jitScripting = true ∨ jitTracing = true then 0
    else if training = true then cfg.ff2SkipRate else 0
  let f2 := ops.balancerFf2 (ops.ff2 conv1Step.1)
  let dm2 := getSequenceDropoutMask training jitScripting jitTracing
    ff2SkipRate cfg.batchSize conv1Step.2
  let src7 := ops.addT conv1Step.1 (match dm2.1 with
    | none => f2
    | some mk => ops.applySeqMask f2 mk)
  let bMid := getBypassScale training jitScripting jitTracing
    cfg.bypassMidParam cfg.bypassMidMin cfg.bypassMidMax cfg.bypassMidSkip
    cfg.bypassMidSt cfg.batchSize dm2.2
  let src8 := ops.bypassCombine srcOrig src7 bMid.1
  let sa2 := ops.selfAttn2 src8 attnWeights
  let src9 := ops.addT src8 (match selfAttnDropoutMask with
    | none => sa2
    | some mk => ops.applySeqMask sa2 mk)
  let conv2Step : T × List ℚ :=
    if cfg.useConv = true then
      let convSkipRate : ℚ :=
        if jitScripting = true ∨ jitTracing = true then 0
        else if training = true then cfg.convSkipRate else 0
      let src10 := match cfg.timeEmb with
        | none => src9
        | some te => ops.addT src9 te
      let c := ops.convMod2 src10
      let dmc := getSequenceDropoutMask training jitScripting jitTracing
        convSkipRate cfg.batchSize bMid.2
      (ops.addT src10 (match dmc.1 with
        | none => c
        | some mk => ops.applySeqMask c mk), dmc.2)
    else (src9, bMid.2)
  let ff3SkipRate : ℚ :=
    if jitScripting = true ∨ jitTracing = true then 0
    else if training = true then cfg.ff3SkipRate else 0
  let f3 := ops.balancerFf3 (ops.ff3 conv2Step.1)
  let dm3 := getSequenceDropoutMask training jitScripting jitTracing
    ff3SkipRate cfg.batchSize conv2Step.2
  let src12 := ops.addT conv2Step.1 (match dm3.1 with
    | none => f3
    | some mk => ops.applySeqMask f3 mk)
  let src13 := ops.biasNorm (ops.balancer1 src12)
  let bMain := getBypassScale training jitScripting jitTracing
    cfg.bypassParam cfg.bypassMin cfg.bypassMax cfg.bypassSkip cfg.bypassSt
    cfg.batchSize dm3.2
  let src14 := ops.bypassCombine srcOrig src13 bMain.1
  (ops.whitenT (ops.balancer2 src14), bMain.2)

/-- `Zipformer2Encoder.forward`'s layer loop (lines 727-734), threading the
random stream. -/
def zipEncoderRun {T W : Type} (training jitScripting jitTracing : Bool)
    (ops : LayerOps T W) : List (LayerCfg T) → T → List ℚ → T × List ℚ
  | [], src, rng => (src, rng)
  | cfg :: rest, src, rng =>
    zipEncoderRun training jitScripting jitTracing ops rest
      (layerForward training jitScripting jitTracing ops cfg src rng).1
      (layerForward training jitScripting jitTracing ops cfg src rng).2

/-- `TTSZipformer.forward`'s encoder-stack loop (lines 276-282). -/
def ttsEncodersRun {T W : Type} (training jitScripting jitTracing : Bool)
    (ops : LayerOps T W) :
    List (List (LayerCfg T)) → T → List ℚ → T × List ℚ
  | [], src, rng => (src, rng)
  | cfgs :: rest, src, rng =>
    ttsEncodersRun training jitScripting jitTracing ops rest
      (zipEncoderRun training jitScripting jitTracing ops cfgs src rng).1
      (zipEncoderRun training jitScripting jitTracing ops cfgs src rng).2

/-- `TTSZipformer.forward` with explicit randomness: input projection, the
encoder stacks, output projection. -/
def ttsZipformerForwardRand {T W : Type}
    (training jitScripting jitTracing : Bool) (ops : LayerOps T W)
    (inProj outProj : T → T) (stacksCfg : List (List (LayerCfg T))) (x0 : T)
    (rng : List ℚ) : T × List ℚ :=
  let p := ttsEncodersRun training jitScripting jitTracing ops stacksCfg
    (inProj x0) rng
  (outProj p.1, p.2)

theorem getSequenceDropoutMask_eval (jitScripting jitTracing : Bool)
    (dropoutRate : ℚ) (batchSize : ℕ) (rng : List ℚ) :
    getSequenceDropoutMask false jitScripting jitTracing dropoutRate
      batchSize rng = (none, rng) := by
  unfold getSequenceDropoutMask
  rw [if_pos (Or.inr (Or.inl rfl))]

theorem getBypassScale_eval (jitScripting jitTracing : Bool)
    (bypassScaleParam : List ℚ) (scaleMin scaleMax skipRate stRate : ℚ)
    (batchSize : ℕ) (rng : List ℚ) :
    getBypassScale false jitScripting jitTracing bypassScaleParam scaleMin
      scaleMax skipRate stRate batchSize rng =
      (.perChannel bypassScaleParam, rng) := by
  unfold getBypassScale
  rw [if_pos (Or.inr (Or.inr rfl))]

theorem attnWeightsForward_eval {T W : Type} (ops : LayerOps T W)
    (posSkipRate dropoutP : ℚ) (src : T) (rng : List ℚ) :
    attnWeightsForward false false false ops posSkipRate dropoutP src rng =
      (ops.softmaxW (ops.addPosScores (ops.attnScores src)), rng.tail) := by
  simp [attnWeightsForward, drawRand]

theorem layerForward_fst_eval {T W : Type} (ops : LayerOps T W)
    (cfg : LayerCfg T) (src : T) (rng rng' : List ℚ) :
    (layerForward false false false ops cfg src rng).1 =
      (layerForward false false false ops cfg src rng').1 := by
  simp [layerForward, attnWeightsForward_eval, getSequenceDropoutMask_eval,
    getBypassScale_eval, apply_ite]

theorem zipEncoderRun_fst_eval {T W : Type} (ops : LayerOps T W)
    (cfgs : List (LayerCfg T)) :
    ∀ (src : T) (rng1 rng2 : List ℚ),
      (zipEncoderRun false false false ops cfgs src rng1).1 =
        (zipEncoderRun false false false ops cfgs src rng2).1 := by
  induction cfgs with
  | nil => intro src rng1 rng2; rfl
  | cons cfg rest ih =>
    intro src rng1 rng2
    unfold zipEncoderRun
    have h1 := layerForward_fst_eval ops cfg src rng1 rng2
    rw [h1]
    exact ih _ _ _

theorem ttsEncodersRun_fst_eval {T W : Type} (ops : LayerOps T W)
    (stacksCfg : List (List (LayerCfg T))) :
    ∀ (src : T) (rng1 rng2 : List ℚ),
      (ttsEncodersRun false false false ops stacksCfg src rng1).1 =
        (ttsEncodersRun false false false ops stacksCfg src rng2).1 := by
  induction stacksCfg with
  | nil => intro src rng1 rng2; rfl
  | cons cfgs rest ih =>
    intro src rng1 rng2
    unfold ttsEncodersRun
    have h1 := zipEncoderRun_fst_eval ops cfgs src rng1 rng2
    rw [h1]
    exact ih _ _ _

/-- C4: with training disabled and no jit scripting/tracing, two forward
passes of the `TTSZipformer` model with identical inputs and identical
parameters return identical outputs whatever the random streams contain:
every stochastic gate (attention/conv/ff2/ff3 sequence dropout, bypass
layer-skip and straight-through, constant-attention substitution,
positional-score skip, attention dropout) resolves without touching the
output (the only randomness still consumed, the entropy-print draw, never
affects the computed value). -/
theorem c4_inference_deterministic {T W : Type} (ops : LayerOps T W)
    (inProj outProj : T → T) (stacksCfg : List (List (LayerCfg T))) (x0 : T)
    (training jitScripting jitTracing : Bool)
    (htr : training = false) (hjs : jitScripting = false)
    (hjt : jitTracing = false) (rng1 rng2 : List ℚ) :
    (ttsZipformerForwardRand training jitScripting jitTracing ops inProj
      outProj stacksCfg x0 rng1).1 =
    (ttsZipformerForwardRand training jitScripting jitTracing ops inProj
      outProj stacksCfg x0 rng2).1 := by
  subst htr hjs hjt
  unfold ttsZipformerForwardRand
  exact congrArg outProj
    (ttsEncodersRun_fst_eval ops stacksCfg (inProj x0) rng1 rng2)

/-- Concrete instantiation for the C4 witness. -/
def c4OpsWitness : LayerOps ℚ ℚ where
  addT := (· + ·)
  ff1 := (· * 2)
  ff2 := (· + 1)
  ff3 := (· * 3)
  attnScores := (· + 2)
  addPosScores := (· * 2)
  penalizeScores := (· - 1)
  softmaxW := (· + 3)
  dropoutW := fun w r => w * r
  headSlice := (· + 7)
  constAvg := (· * 5)
  nonlinAttn := fun a b => a + b
  selfAttn1 := fun a b => a + b
  selfAttn2 := fun a b => a - b
  convMod1 := (· + 4)
  convMod2 := (· + 5)
  applySeqMask := fun a mk => a * mk.headD 1
  balancerNa := id
  balancerFf2 := id
  balancerFf3 := id
  balancer1 := id
  biasNorm := id
  balancer2 := id
  whitenT := id
  bypassCombine := fun o s sc =>
    match sc with
    | .perChannel v => o + (s - o) * v.headD 1
    | .perSequence m => o + (s - o) * (m.headD []).headD 1

/-- Concrete layer configuration for the C4 witness. -/
def c4CfgWitness : LayerCfg ℚ where
  attnSkipRate := 1/5
  convSkipRate := 1/5
  ff2SkipRate := 1/10
  ff3SkipRate := 1/10
  constAttnRate := 1/4
  posSkipRate := 1/2
  attnDropoutP := 0
  bypassMidParam := [1/2]
  bypassMidMin := 1/5
  bypassMidMax := 1
  bypassMidSkip := 0
  bypassMidSt := 0
  bypassParam := [1/2]
  bypassMin := 1/5
  bypassMax := 1
  bypassSkip := 1/50
  bypassSt := 0
  useConv := true
  timeEmb := some 1
  batchSize := 2

theorem c4_inference_deterministic_witness :
    (false = false) ∧
    (ttsZipformerForwardRand false false false c4OpsWitness (fun v => v + 1)
      (fun v => v * 2) [[c4CfgWitness], [c4CfgWitness, c4CfgWitness]] 3
      [0, 1/2, 1]).1 =
    (ttsZipformerForwardRand false false false c4OpsWitness (fun v => v + 1)
      (fun v => v * 2) [[c4CfgWitness], [c4CfgWitness, c4CfgWitness]] 3
      [1, 0]).1 :=
  ⟨rfl, c4_inference_deterministic c4OpsWitness (fun v => v + 1)
    (fun v => v * 2) [[c4CfgWitness], [c4CfgWitness, c4CfgWitness]] 3
    false false false rfl rfl rfl [0, 1/2, 1] [1, 0]⟩

end ZipVoice
